import Mathlib

/-!
Verification of the husky-musher registration-redirect service.

The development embeds, as executable Lean definitions, the pieces of the
service that its documented properties talk about:

* the JSON serialization used by the cache (`json_dumps` / `json_loads`,
  standing in for the standard library's `json.dumps` / `json.loads`,
  restricted to the JSON fragment the application stores: strings, arrays
  and string-keyed objects);
* the cache (`Cache.sanitize_key`, `Cache.get`, `Cache.set` over a
  functional key/value store, matching both the real Redis contract and the
  `MockRedis` fallback);
* the REDCap client (`fetch_participant`, `redcap_registration_complete`,
  `get_the_current_week`, `generate_survey_link`);
* the registration-state resolver of the redirect handler, and the
  application's error-handler table.
-/

/-- JSON values, in the fragment this application serializes: strings,
arrays, and string-keyed objects (participant records are flat
string-to-string objects). -/
inductive Json where
  | str : String → Json
  | arr : List Json → Json
  | obj : List (String × Json) → Json
deriving Repr

/-- Serialization of one string character, escaping the quote and the
backslash as `json.dumps` does. -/
def encodeChar (c : Char) : List Char :=
  if c = '"' ∨ c = '\\' then ['\\', c] else [c]

/-- Serialization of a string body (without the surrounding quotes). -/
def encodeStr : List Char → List Char
  | [] => []
  | c :: rest => encodeChar c ++ encodeStr rest

mutual

/-- Serializer for `Json`, following the default `json.dumps` layout
(`", "` between items, `": "` after keys). -/
def printJson : Json → List Char
  | .str s => '"' :: (encodeStr s.data ++ ['"'])
  | .arr xs => '[' :: (printItems xs ++ [']'])
  | .obj fs => '\x7b' :: (printFields fs ++ ['\x7d'])

/-- Serialized items of an array. -/
def printItems : List Json → List Char
  | [] => []
  | x :: xs => printJson x ++ printItemsRest xs

/-- Serialized items of an array after the first, each preceded by `", "`. -/
def printItemsRest : List Json → List Char
  | [] => []
  | x :: xs => ',' :: ' ' :: (printJson x ++ printItemsRest xs)

/-- Serialized fields of an object. -/
def printFields : List (String × Json) → List Char
  | [] => []
  | f :: fs => printField f ++ printFieldsRest fs

/-- One serialized object field: quoted key, `": "`, value. -/
def printField : String × Json → List Char
  | (k, v) => '"' :: (encodeStr k.data ++ '"' :: ':' :: ' ' :: printJson v)

/-- Serialized fields of an object after the first, each preceded by `", "`. -/
def printFieldsRest : List (String × Json) → List Char
  | [] => []
  | f :: fs => ',' :: ' ' :: (printField f ++ printFieldsRest fs)

end

/-- `json.dumps` on the embedded JSON fragment. -/
def json_dumps (j : Json) : String := ⟨printJson j⟩

/-- Parser for a string body: consumes up to and including the closing
quote, undoing the escapes of `encodeChar`. -/
def parseStringBody : List Char → Option (List Char × List Char)
  | [] => none
  | c :: rest =>
    if c = '"' then some ([], rest)
    else if c = '\\' then
      match rest with
      | [] => none
      | c2 :: rest2 => (parseStringBody rest2).map fun p => (c2 :: p.1, p.2)
    else (parseStringBody rest).map fun p => (c :: p.1, p.2)

mutual

/-- Fuel-indexed parser for one JSON value. -/
def parseJson : Nat → List Char → Option (Json × List Char)
  | 0, _ => none
  | _ + 1, [] => none
  | fuel + 1, c :: rest =>
    if c = '"' then (parseStringBody rest).map fun p => (Json.str ⟨p.1⟩, p.2)
    else if c = '[' then (parseArrItems fuel rest).map fun p => (Json.arr p.1, p.2)
    else if c = '\x7b' then (parseObjItems fuel rest).map fun p => (Json.obj p.1, p.2)
    else none

/-- Parser for the items of an array, including the closing bracket. -/
def parseArrItems : Nat → List Char → Option (List Json × List Char)
  | 0, _ => none
  | _ + 1, [] => none
  | fuel + 1, c :: rest =>
    if c = ']' then some ([], rest)
    else
      match parseJson fuel (c :: rest) with
      | none => none
      | some (x, r) =>
        match parseArrRest fuel r with
        | none => none
        | some (xs, r2) => some (x :: xs, r2)

/-- Parser for an array continuation: either the closing bracket or a
`", "` separator followed by another item. -/
def parseArrRest : Nat → List Char → Option (List Json × List Char)
  | 0, _ => none
  | _ + 1, [] => none
  | fuel + 1, c :: rest =>
    if c = ']' then some ([], rest)
    else if c = ',' then
      match rest with
      | ' ' :: rest2 =>
        match parseJson fuel rest2 with
        | none => none
        | some (x, r) =>
          match parseArrRest fuel r with
          | none => none
          | some (xs, r2) => some (x :: xs, r2)
      | _ => none
    else none

/-- Parser for the fields of an object, including the closing brace. -/
def parseObjItems : Nat → List Char → Option (List (String × Json) × List Char)
  | 0, _ => none
  | _ + 1, [] => none
  | fuel + 1, c :: rest =>
    if c = '\x7d' then some ([], rest)
    else if c = '"' then
      match parseStringBody rest with
      | none => none
      | some (k, r) =>
        match r with
        | ':' :: ' ' :: r2 =>
          match parseJson fuel r2 with
          | none => none
          | some (v, r3) =>
            match parseObjRest fuel r3 with
            | none => none
            | some (fs, r4) => some ((⟨k⟩, v) :: fs, r4)
        | _ => none
    else none

/-- Parser for an object continuation: either the closing brace or a
`", "` separator followed by another field. -/
def parseObjRest : Nat → List Char → Option (List (String × Json) × List Char)
  | 0, _ => none
  | _ + 1, [] => none
  | fuel + 1, c :: rest =>
    if c = '\x7d' then some ([], rest)
    else if c = ',' then
      match rest with
      | ' ' :: (c2 :: rest2) =>
        if c2 = '"' then
          match parseStringBody rest2 with
          | none => none
          | some (k, r) =>
            match r with
            | ':' :: ' ' :: r2 =>
              match parseJson fuel r2 with
              | none => none
              | some (v, r3) =>
                match parseObjRest fuel r3 with
                | none => none
                | some (fs, r4) => some ((⟨k⟩, v) :: fs, r4)
            | _ => none
        else none
      | _ => none
    else none

end

/-- `json.loads`: parses a complete serialized value; any parse failure or
trailing input models the `JSONDecodeError` the Python call raises. -/
def json_loads (s : String) : Option Json :=
  match parseJson (s.data.length + 1) s.data with
  | some (j, []) => some j
  | _ => none

/-- Undoing `encodeChar`'s escapes: the string-body parser consumes an
encoded body up to the closing quote. -/
theorem parseStringBody_encode (s rest : List Char) :
    parseStringBody (encodeStr s ++ '"' :: rest) = some (s, rest) := by
  induction s with
  | nil =>
    simp only [encodeStr, List.nil_append]
    rw [parseStringBody.eq_def]
    simp
  | cons c t ih =>
    by_cases h : c = '"' ∨ c = '\\'
    · have he : encodeStr (c :: t) = '\\' :: c :: encodeStr t := by
        simp [encodeStr, encodeChar, h]
      rw [he]
      simp only [List.cons_append]
      rw [parseStringBody.eq_def]
      rcases h with h | h <;> subst h <;> simp [ih]
    · push_neg at h
      have he : encodeStr (c :: t) = c :: encodeStr t := by
        simp [encodeStr, encodeChar, h.1, h.2]
      rw [he]
      simp only [List.cons_append]
      rw [parseStringBody.eq_def]
      simp [h.1, h.2, ih]

mutual

/-- Recursion budget sufficient to parse a serialized value. -/
def jsonFuel : Json → Nat
  | .str _ => 1
  | .arr xs => jsonFuelItems xs + 1
  | .obj fs => jsonFuelFields fs + 1

/-- Budget for the items of an array. -/
def jsonFuelItems : List Json → Nat
  | [] => 1
  | x :: xs => max (jsonFuel x) (jsonFuelRest xs) + 1

/-- Budget for an array continuation. -/
def jsonFuelRest : List Json → Nat
  | [] => 1
  | x :: xs => max (jsonFuel x) (jsonFuelRest xs) + 1

/-- Budget for the fields of an object. -/
def jsonFuelFields : List (String × Json) → Nat
  | [] => 1
  | (_, v) :: fs => max (jsonFuel v) (jsonFuelFieldsRest fs) + 1

/-- Budget for an object continuation. -/
def jsonFuelFieldsRest : List (String × Json) → Nat
  | [] => 1
  | (_, v) :: fs => max (jsonFuel v) (jsonFuelFieldsRest fs) + 1

end

/-- Every serialized value starts with a quote, a bracket or a brace. -/
theorem printJson_head (j : Json) :
    ∃ cs, printJson j = '"' :: cs ∨ printJson j = '[' :: cs ∨ printJson j = '\x7b' :: cs := by
  cases j with
  | str s => exact ⟨_, Or.inl rfl⟩
  | arr xs => exact ⟨_, Or.inr (Or.inl rfl)⟩
  | obj fs => exact ⟨_, Or.inr (Or.inr rfl)⟩

/-- The parser undoes the serializer: each parsing function, given enough
fuel, consumes exactly the serialized form (and the closing delimiter, for
the item parsers) and returns the original value, leaving the rest of the
input intact. -/
theorem parse_print (fuel : Nat) :
    (∀ j rest, jsonFuel j ≤ fuel →
      parseJson fuel (printJson j ++ rest) = some (j, rest)) ∧
    (∀ xs rest, jsonFuelItems xs ≤ fuel →
      parseArrItems fuel (printItems xs ++ ']' :: rest) = some (xs, rest)) ∧
    (∀ xs rest, jsonFuelRest xs ≤ fuel →
      parseArrRest fuel (printItemsRest xs ++ ']' :: rest) = some (xs, rest)) ∧
    (∀ fs rest, jsonFuelFields fs ≤ fuel →
      parseObjItems fuel (printFields fs ++ '\x7d' :: rest) = some (fs, rest)) ∧
    (∀ fs rest, jsonFuelFieldsRest fs ≤ fuel →
      parseObjRest fuel (printFieldsRest fs ++ '\x7d' :: rest) = some (fs, rest)) := by
  induction fuel with
  | zero =>
    refine ⟨fun j rest h => ?_, fun xs rest h => ?_, fun xs rest h => ?_,
      fun fs rest h => ?_, fun fs rest h => ?_⟩
    · cases j <;> simp [jsonFuel] at h
    · cases xs <;> simp [jsonFuelItems] at h
    · cases xs <;> simp [jsonFuelRest] at h
    · cases fs with
      | nil => simp [jsonFuelFields] at h
      | cons f fs => obtain ⟨k, v⟩ := f; simp [jsonFuelFields] at h
    · cases fs with
      | nil => simp [jsonFuelFieldsRest] at h
      | cons f fs => obtain ⟨k, v⟩ := f; simp [jsonFuelFieldsRest] at h
  | succ fuel ih =>
    obtain ⟨ihJ, ihI, ihR, ihF, ihRO⟩ := ih
    have step_json : ∀ j rest, jsonFuel j ≤ fuel + 1 →
        parseJson (fuel + 1) (printJson j ++ rest) = some (j, rest) := by
      intro j rest h
      cases j with
      | str s =>
        show parseJson (fuel + 1) (('"' :: (encodeStr s.data ++ ['"'])) ++ rest) = _
        simp only [List.cons_append, List.append_assoc, List.singleton_append]
        simp [parseJson, parseStringBody_encode]
      | arr xs =>
        show parseJson (fuel + 1) (('[' :: (printItems xs ++ [']'])) ++ rest) = _
        simp only [List.cons_append, List.append_assoc, List.singleton_append]
        have hb : jsonFuelItems xs ≤ fuel := by simp [jsonFuel] at h; omega
        simp [parseJson, ihI xs rest hb]
      | obj fs =>
        show parseJson (fuel + 1) (('\x7b' :: (printFields fs ++ ['\x7d'])) ++ rest) = _
        simp only [List.cons_append, List.append_assoc, List.singleton_append]
        have hb : jsonFuelFields fs ≤ fuel := by simp [jsonFuel] at h; omega
        simp [parseJson, ihF fs rest hb]
    refine ⟨step_json, ?_, ?_, ?_, ?_⟩
    · intro xs rest h
      cases xs with
      | nil => simp [printItems, parseArrItems]
      | cons x t =>
        have hx : jsonFuel x ≤ fuel := by simp [jsonFuelItems] at h; omega
        have ht : jsonFuelRest t ≤ fuel := by simp [jsonFuelItems] at h; omega
        obtain ⟨cs, hc⟩ := printJson_head x
        have hjx := ihJ x (printItemsRest t ++ ']' :: rest) hx
        have hrt := ihR t rest ht
        show parseArrItems (fuel + 1)
          ((printJson x ++ printItemsRest t) ++ ']' :: rest) = _
        rw [List.append_assoc]
        rcases hc with hc | hc | hc <;>
          rw [hc] at hjx ⊢ <;>
          simp only [List.cons_append, List.append_assoc] at hjx ⊢ <;>
          simp [parseArrItems, hjx, hrt]
    · intro xs rest h
      cases xs with
      | nil => simp [printItemsRest, parseArrRest]
      | cons x t =>
        have hx : jsonFuel x ≤ fuel := by simp [jsonFuelRest] at h; omega
        have ht : jsonFuelRest t ≤ fuel := by simp [jsonFuelRest] at h; omega
        have hjx := ihJ x (printItemsRest t ++ ']' :: rest) hx
        have hrt := ihR t rest ht
        show parseArrRest (fuel + 1)
          ((',' :: ' ' :: (printJson x ++ printItemsRest t)) ++ ']' :: rest) = _
        simp only [List.cons_append, List.append_assoc]
        simp [parseArrRest, hjx, hrt]
    · intro fs rest h
      cases fs with
      | nil => simp [printFields, parseObjItems]
      | cons f t =>
        obtain ⟨k, v⟩ := f
        have hv : jsonFuel v ≤ fuel := by simp [jsonFuelFields] at h; omega
        have ht : jsonFuelFieldsRest t ≤ fuel := by simp [jsonFuelFields] at h; omega
        have hjv := ihJ v (printFieldsRest t ++ '\x7d' :: rest) hv
        have hrt := ihRO t rest ht
        show parseObjItems (fuel + 1)
          ((('"' :: (encodeStr k.data ++ '"' :: ':' :: ' ' :: printJson v)) ++
            printFieldsRest t) ++ '\x7d' :: rest) = _
        simp only [List.cons_append, List.append_assoc]
        simp [parseObjItems, parseStringBody_encode, hjv, hrt]
    · intro fs rest h
      cases fs with
      | nil => simp [printFieldsRest, parseObjRest]
      | cons f t =>
        obtain ⟨k, v⟩ := f
        have hv : jsonFuel v ≤ fuel := by simp [jsonFuelFieldsRest] at h; omega
        have ht : jsonFuelFieldsRest t ≤ fuel := by simp [jsonFuelFieldsRest] at h; omega
        have hjv := ihJ v (printFieldsRest t ++ '\x7d' :: rest) hv
        have hrt := ihRO t rest ht
        show parseObjRest (fuel + 1)
          ((',' :: ' ' :: (('"' :: (encodeStr k.data ++ '"' :: ':' :: ' ' :: printJson v)) ++
            printFieldsRest t)) ++ '\x7d' :: rest) = _
        simp only [List.cons_append, List.append_assoc]
        simp [parseObjRest, parseStringBody_encode, hjv, hrt]

/-- A serialized value is at least two characters long. -/
theorem two_le_printJson_length (j : Json) : 2 ≤ (printJson j).length := by
  cases j <;> simp [printJson]

mutual

/-- The parsing budget of a value is covered by its serialized length. -/
theorem jsonFuel_le (j : Json) : jsonFuel j ≤ (printJson j).length := by
  cases j with
  | str s => simp [jsonFuel, printJson]
  | arr xs =>
    have := jsonFuelItems_le xs
    simp only [jsonFuel, printJson, List.length_cons, List.length_append]
    simp
    omega
  | obj fs =>
    have := jsonFuelFields_le fs
    simp only [jsonFuel, printJson, List.length_cons, List.length_append]
    simp
    omega

/-- Budget bound for array items (the closing bracket supplies the slack). -/
theorem jsonFuelItems_le (xs : List Json) : jsonFuelItems xs ≤ (printItems xs).length + 1 := by
  cases xs with
  | nil => simp [jsonFuelItems, printItems]
  | cons x t =>
    have h1 := jsonFuel_le x
    have h2 := jsonFuelRest_le t
    have h3 := two_le_printJson_length x
    simp only [jsonFuelItems, printItems, List.length_append]
    omega

/-- Budget bound for an array continuation. -/
theorem jsonFuelRest_le (xs : List Json) : jsonFuelRest xs ≤ (printItemsRest xs).length + 1 := by
  cases xs with
  | nil => simp [jsonFuelRest, printItemsRest]
  | cons x t =>
    have h1 := jsonFuel_le x
    have h2 := jsonFuelRest_le t
    simp only [jsonFuelRest, printItemsRest, List.length_cons, List.length_append]
    omega

/-- Budget bound for object fields. -/
theorem jsonFuelFields_le (fs : List (String × Json)) :
    jsonFuelFields fs ≤ (printFields fs).length + 1 := by
  cases fs with
  | nil => simp [jsonFuelFields, printFields]
  | cons f t =>
    obtain ⟨k, v⟩ := f
    have h1 := jsonFuel_le v
    have h2 := jsonFuelFieldsRest_le t
    simp only [jsonFuelFields, printFields, printField, List.length_append, List.length_cons]
    omega

/-- Budget bound for an object continuation. -/
theorem jsonFuelFieldsRest_le (fs : List (String × Json)) :
    jsonFuelFieldsRest fs ≤ (printFieldsRest fs).length + 1 := by
  cases fs with
  | nil => simp [jsonFuelFieldsRest, printFieldsRest]
  | cons f t =>
    obtain ⟨k, v⟩ := f
    have h1 := jsonFuel_le v
    have h2 := jsonFuelFieldsRest_le t
    simp only [jsonFuelFieldsRest, printFieldsRest, printField, List.length_cons,
      List.length_append]
    omega

end

/-- Deserialization undoes serialization on the embedded JSON fragment. -/
theorem json_loads_dumps (j : Json) : json_loads (json_dumps j) = some j := by
  have hb : jsonFuel j ≤ (printJson j).length + 1 := le_trans (jsonFuel_le j) (by omega)
  have h := (parse_print ((printJson j).length + 1)).1 j [] hb
  simp only [List.append_nil] at h
  simp [json_loads, json_dumps, h]

/-! ## The cache (`husky_musher/utils/cache.py`)

The backing store (Redis, or the `MockRedis` dictionary fallback) is a
partial map from keys to stored strings; `get` on a missing key yields
`none` in both backends. -/

/-- Python's `str.startswith`: character-level prefix test. -/
def str_startswith (s pre : String) : Bool := pre.data.isPrefixOf s.data

/-- `Cache.sanitize_key`: prepend the application prefix (`settings.app_name`
followed by a dot) unless the key already starts with it. -/
def sanitize_key (pfx key : String) : String :=
  if str_startswith key pfx then key else pfx ++ key

/-- The backing key/value store. -/
def Store : Type := String → Option String

/-- A store with no entries (a fresh `MockRedis`, or a flushed Redis). -/
def emptyStore : Store := fun _ => none

/-- `redis.set` / `MockRedis.set`. -/
def redis_set (store : Store) (key value : String) : Store :=
  fun k => if k = key then some value else store k

/-- Values accepted by `Cache.set`: Redis primitives are stored verbatim,
anything else is JSON-serialized.  (Python also passes `bytes` and `float`
through; they behave like the string and int cases and are omitted.) -/
inductive PyValue where
  | pstr : String → PyValue
  | pint : Int → PyValue
  | pjson : Json → PyValue

/-- `Cache._sanitize_value`: primitives pass through (an int is stored as
its decimal text, which is how Redis keeps it), other values are
`json.dumps`-serialized. -/
def sanitize_value : PyValue → String
  | .pstr s => s
  | .pint n => toString n
  | .pjson j => json_dumps j

/-- `Cache.set`: sanitize the key, sanitize the value, store it.  (The
optional `expire_seconds` TTL is omitted: no caller passes it, and entries
have no expiry by default.) -/
def cache_set (store : Store) (pfx key : String) (value : PyValue) : Store :=
  redis_set store (sanitize_key pfx key) (sanitize_value value)

/-- What `Cache.get` hands back: nothing, the raw stored string, or a
deserialized JSON value. -/
inductive CacheResult where
  | absent : CacheResult
  | raw : String → CacheResult
  | parsed : Json → CacheResult

/-- `Cache.get`: read through the sanitized key; on `load_json` with a
truthy (non-empty) stored value, deserialize — a stored string that is not
valid JSON makes `json.loads` raise, modelled as `Except.error`.  (The
unused `cast_as` parameter is omitted; no caller passes it.) -/
def cache_get (store : Store) (pfx key : String) (load_json : Bool) :
    Except Unit CacheResult :=
  match store (sanitize_key pfx key) with
  | none => .ok .absent
  | some value =>
    if load_json && value ≠ "" then
      match json_loads value with
      | some j => .ok (.parsed j)
      | none => .error ()
    else .ok (.raw value)

/-! ## Participant records and the REDCap client (`husky_musher/utils/redcap.py`) -/

/-- A participant record: the flat string-to-string field mapping REDCap
returns for one record. -/
abbrev Record := List (String × String)

/-- A record as the JSON object `json.dumps` receives from `Cache.set`. -/
def record_to_json (r : Record) : Json :=
  Json.obj (r.map fun p => (p.1, Json.str p.2))

/-- Reading a record back out of cached JSON: defined exactly on flat
string-valued objects, which is the only shape this application stores. -/
def json_to_record : Json → Option Record
  | .obj fs =>
    fs.foldr
      (fun f acc =>
        match f.2, acc with
        | .str v, some t => some ((f.1, v) :: t)
        | _, _ => none)
      (some [])
  | _ => none

/-- Python truthiness of a loaded JSON value (`if not record: ...`):
empty strings, arrays and objects are falsy. -/
def jsonTruthy : Json → Bool
  | .str s => s ≠ ""
  | .arr xs => !xs.isEmpty
  | .obj fs => !fs.isEmpty

/-- `REDCapValue.COMPLETE`: the REDCap "complete" enumeration value. -/
def REDCapValue_COMPLETE : String := "2"

/-- Modelled from the spec: `is_complete` is imported from the external
`id3c` library (not part of this repository).  Per the spec and the
repository's own doctests, an instrument is complete exactly when the
record's `<instrument>_complete` field equals the "complete" value `"2"`;
a missing or different value is not complete. -/
def is_complete (instrument : String) (record : Record) : Bool :=
  List.lookup (instrument ++ "_complete") record == some REDCapValue_COMPLETE

/-- `REDCapClient.redcap_registration_complete`: a falsy record (absent or
empty) is incomplete; otherwise the enrollment questionnaire's complete
flag decides. -/
def redcap_registration_complete (record : Option Record) : Bool :=
  match record with
  | none => false
  | some r => if r.isEmpty then false else is_complete "enrollment_questions" r

/-- A calendar date (the `datetime` values in this code are always
midnight-valued: the study start date is parsed from `YYYY-MM-DD`, and
`(datetime.today() - start).days` equals the difference of proleptic
Gregorian ordinals). -/
structure Date where
  year : Nat
  month : Nat
  day : Nat

/-- Gregorian leap-year test. -/
def isLeapYear (y : Nat) : Bool :=
  (y % 4 == 0 && y % 100 != 0) || y % 400 == 0

/-- Days in the months strictly before month `m`. -/
def daysBeforeMonth (m : Nat) (leap : Bool) : Nat :=
  let base :=
    match m with
    | 1 => 0
    | 2 => 31
    | 3 => 59
    | 4 => 90
    | 5 => 120
    | 6 => 151
    | 7 => 181
    | 8 => 212
    | 9 => 243
    | 10 => 273
    | 11 => 304
    | 12 => 334
    | _ => 0
  if leap && decide (2 < m) then base + 1 else base

/-- Python's `date.toordinal`: day number in the proleptic Gregorian
calendar, with 0001-01-01 as day 1. -/
def date_toordinal (d : Date) : Nat :=
  let y := d.year - 1
  365 * y + y / 4 + y / 400 - y / 100 + daysBeforeMonth d.month (isLeapYear d.year) + d.day

/-- `REDCapClient.get_the_current_week`: `1 + (today - study_start).days // 7`
(Python's `//` is flooring division, hence `Int.fdiv`). -/
def get_the_current_week (today study_start : Date) : Int :=
  1 + Int.fdiv ((date_toordinal today : Int) - (date_toordinal study_start : Int)) 7

/-- The event/instrument/repeat-instance triple the redirect handler
passes to survey-link generation. -/
structure SurveyTarget where
  event : String
  instrument : String
  repeat_instance : Option Int
deriving Repr, DecidableEq

/-- The registration-state resolution of `render_redirect` (lines 59-71 of
`blueprints/app.py`): enrollment event and instrument by default; if
registration is complete, the week-named event and the periodic test
instrument, with no repeat instance in either case. -/
def resolve_target (record : Option Record) (today study_start : Date) : SurveyTarget :=
  if redcap_registration_complete record then
    { event := "week_" ++ toString (get_the_current_week today study_start) ++ "_arm_1"
      instrument := "test_form"
      repeat_instance := none }
  else
    { event := "enrollment_arm_1"
      instrument := "enrollment_questions"
      repeat_instance := none }

/-- `render_redirect`'s record acquisition: a fetched record is used as-is;
when the fetch returns absent, the participant is registered and the record
is built as just `{"record_id": new_record_id}`. -/
def render_redirect_record (fetched : Option Record) (new_record_id : String) : Record :=
  match fetched with
  | none => [("record_id", new_record_id)]
  | some r => r

/-- Python truthiness of the optional `instance` argument of
`generate_survey_link` (`if instance:`): `None` and `0` are falsy. -/
def instance_truthy : Option Int → Bool
  | none => false
  | some i => i != 0

/-- The form body `generate_survey_link` posts to REDCap's surveyLink
endpoint; the `repeat_instance` parameter is added only when the
`instance` argument is truthy. -/
def generate_survey_link_data (api_token record_id event instrument : String)
    (inst : Option Int) : List (String × String) :=
  let data := [("token", api_token), ("content", "surveyLink"), ("format", "json"),
    ("instrument", instrument), ("event", event), ("record", record_id),
    ("returnFormat", "json")]
  if instance_truthy inst then
    data ++ [("repeat_instance", toString (inst.getD 0))]
  else data

/-- The errors `fetch_participant` can raise: the `BadRequest` for multiple
matching records, and the `JSONDecodeError` escaping from `cache.get`
(a cached value that is not the JSON of a string-valued record fails —
in Python either inside `json.loads` or on later field access). -/
inductive FetchError where
  | multipleRecords : String → List String → FetchError
  | cacheDecodeError : FetchError

/-- The observable outcome of `fetch_participant`: the returned record (or
absent), the cache store afterwards, and whether the REDCap export API was
called. -/
structure FetchResult where
  record : Option Record
  store : Store
  externalCalled : Bool

/-- The REDCap-export branch of `fetch_participant` (the body of its
`if not record:` block): zero matches return `None`; more than one raises
the ambiguous-record `BadRequest` listing the record ids; otherwise the
single record is returned, and cached first when
`redcap_registration_complete` holds. -/
def fetch_participant_external (store : Store) (pfx uw_netid : String) :
    List Record → Except FetchError FetchResult
  | [] => .ok ⟨none, store, true⟩
  | [r] =>
    if redcap_registration_complete (some r) then
      .ok ⟨some r, cache_set store pfx uw_netid (.pjson (record_to_json r)), true⟩
    else
      .ok ⟨some r, store, true⟩
  | rs =>
    .error (.multipleRecords uw_netid (rs.map fun x => (List.lookup "record_id" x).getD ""))

/-- `REDCapClient.fetch_participant`, as a function of the cache store and
of the records REDCap's filtered export would return for this NetID. The
cache is consulted first (`load_json=True`); a truthy cached value is
returned without any export call, while a falsy one (absent key, empty
string, or JSON decoding to an empty value) falls through to the export
branch `fetch_participant_external`. -/
def fetch_participant (store : Store) (pfx uw_netid : String)
    (externalRecords : List Record) : Except FetchError FetchResult :=
  match cache_get store pfx uw_netid true with
  | .error _ => .error .cacheDecodeError
  | .ok (.parsed j) =>
    if jsonTruthy j then
      match json_to_record j with
      | some r => .ok ⟨some r, store, false⟩
      | none => .error .cacheDecodeError
    else fetch_participant_external store pfx uw_netid externalRecords
  | .ok _ => fetch_participant_external store pfx uw_netid externalRecords

/-! ## Error handling (`husky_musher/app.py`) -/

/-- The exceptions reaching the application boundary: `InvalidNetId`
(raised by identity validation; `detail = "Invalid NetID"`, `code = 400`),
other `BadRequest`s such as the ambiguous-record error, the "No remote
user!" `InternalServerError`, failures of the external HTTP calls, the
routing 404, and anything else. -/
inductive AppException where
  | invalidNetId : String → AppException
  | badRequest : String → AppException
  | internalServerError : String → AppException
  | httpError : AppException
  | notFound : AppException
  | other : String → AppException

/-- A rendered error response: template name and HTTP status. -/
structure ErrorPage where
  template : String
  status : Nat
deriving Repr, DecidableEq

/-- The handler table of `register_error_handlers`, resolved the way Flask
dispatches (the most specific registered handler for the exception's class
wins; the `Exception` handler catches everything else, HTTP errors
included): `InvalidNetId` renders the dedicated 400 page, the unrouted
path renders the 404 page, and every other exception renders the generic
"something went wrong" page with status 500. -/
def handle_exception : AppException → ErrorPage
  | .invalidNetId _ => ⟨"invalid_netid.html", 400⟩
  | .notFound => ⟨"page_not_found.html", 404⟩
  | _ => ⟨"something_went_wrong.html", 500⟩

/-- The exceptions that can arise inside `render_redirect`'s
identity-extraction / fetch-or-register / resolve / link-generation chain
(the routing 404 is not one of them: it occurs before the handler runs). -/
def raised_in_redirect_chain : AppException → Prop
  | .notFound => False
  | _ => True

/-! ## Helper lemmas -/

/-- A serialized value is never the empty string. -/
theorem json_dumps_ne_empty (j : Json) : json_dumps j ≠ "" := by
  intro h
  have h2 := two_le_printJson_length j
  have h3 : printJson j = ([] : List Char) := congrArg String.data h
  rw [h3] at h2
  simp at h2

/-- Reading a record back out of its JSON form recovers the record. -/
theorem json_to_record_record_to_json (r : Record) :
    json_to_record (record_to_json r) = some r := by
  induction r with
  | nil => rfl
  | cons p t ih =>
    obtain ⟨k, v⟩ := p
    simp only [record_to_json, json_to_record, List.map_cons, List.foldr_cons] at ih ⊢
    rw [ih]

/-- The JSON form of a non-empty record is truthy. -/
theorem jsonTruthy_record_to_json (r : Record) (h : r ≠ []) :
    jsonTruthy (record_to_json r) = true := by
  cases r with
  | nil => exact absurd rfl h
  | cons p t => simp [record_to_json, jsonTruthy]

/-- `cache_get` with `load_json` after caching a record's JSON parses the
record's JSON back. -/
theorem cache_get_set_pjson (store : Store) (pfx key : String) (j : Json) :
    cache_get (cache_set store pfx key (.pjson j)) pfx key true = .ok (.parsed j) := by
  simp [cache_get, cache_set, redis_set, sanitize_value, json_dumps_ne_empty j,
    json_loads_dumps j]

/-! ## Claims -/

/-- C1: for every participant record whose enrollment-complete flag equals
the "complete" enumeration value "2", the resolver selects the week-named
event `week_N_arm_1` with N computed solely as
`1 + floor(days_since_study_start / 7)`, the periodic test instrument
`test_form`, and no repeat instance; for study start 2020-09-24 and
current date 2020-10-08 the computed week is 3. -/
theorem resolver_complete_selects_weekly :
    (∀ (r : Record) (today study_start : Date),
        List.lookup "enrollment_questions_complete" r = some "2" →
        resolve_target (some r) today study_start =
          ⟨"week_" ++ toString (get_the_current_week today study_start) ++ "_arm_1",
            "test_form", none⟩) ∧
    (∀ today study_start : Date,
        get_the_current_week today study_start =
          1 + Int.fdiv ((date_toordinal today : Int) - (date_toordinal study_start : Int)) 7) ∧
    get_the_current_week ⟨2020, 10, 8⟩ ⟨2020, 9, 24⟩ = 3 := by
  refine ⟨?_, fun _ _ => rfl, by decide⟩
  intro r today study_start h
  have hne : r ≠ [] := by
    intro he
    rw [he] at h
    simp [List.lookup] at h
  have hcomp : redcap_registration_complete (some r) = true := by
    simp [redcap_registration_complete, hne, is_complete, REDCapValue_COMPLETE]
    exact h
  simp [resolve_target, hcomp]

/-- Witness for C1 at a concrete record and the spec's example dates. -/
theorem resolver_complete_selects_weekly_witness :
    resolve_target (some [("enrollment_questions_complete", "2")]) ⟨2020, 10, 8⟩ ⟨2020, 9, 24⟩ =
      ⟨"week_" ++ toString (get_the_current_week ⟨2020, 10, 8⟩ ⟨2020, 9, 24⟩) ++ "_arm_1",
        "test_form", none⟩ :=
  resolver_complete_selects_weekly.1 [("enrollment_questions_complete", "2")]
    ⟨2020, 10, 8⟩ ⟨2020, 9, 24⟩ (by simp [List.lookup])

/-- C2: for every record that is absent, empty, or whose
enrollment-complete flag differs from "2" (such as "0" incomplete or "1"
unverified), the resolver selects event `enrollment_arm_1`, instrument
`enrollment_questions`, and no repeat instance. -/
theorem resolver_incomplete_selects_enrollment
    (record : Option Record) (today study_start : Date)
    (h : ∀ r, record = some r → List.lookup "enrollment_questions_complete" r ≠ some "2") :
    resolve_target record today study_start =
      ⟨"enrollment_arm_1", "enrollment_questions", none⟩ := by
  have hcomp : redcap_registration_complete record = false := by
    cases record with
    | none => rfl
    | some r =>
      by_cases he : r = []
      · simp [redcap_registration_complete, he]
      · have := h r rfl
        simp [redcap_registration_complete, he, is_complete, REDCapValue_COMPLETE]
        intro hin
        exact absurd hin this
  simp [resolve_target, hcomp]

/-- Witness for C2 at a record whose enrollment flag is "0" (incomplete). -/
theorem resolver_incomplete_selects_enrollment_witness :
    resolve_target (some [("enrollment_questions_complete", "0")]) ⟨2020, 10, 8⟩ ⟨2020, 9, 24⟩ =
      ⟨"enrollment_arm_1", "enrollment_questions", none⟩ :=
  resolver_incomplete_selects_enrollment _ _ _
    (by intro r hr; cases hr; simp [List.lookup])

/-- C10: a participant absent from REDCap is registered and the record is
built as only `{"record_id": new_record_id}`; such a record never
satisfies `redcap_registration_complete`, so a first-contact user is
always resolved to the enrollment event and instrument, never a weekly
event. -/
theorem fresh_registration_resolves_to_enrollment
    (new_record_id : String) (today study_start : Date) :
    render_redirect_record none new_record_id = [("record_id", new_record_id)] ∧
    redcap_registration_complete (some (render_redirect_record none new_record_id)) = false ∧
    resolve_target (some (render_redirect_record none new_record_id)) today study_start =
      ⟨"enrollment_arm_1", "enrollment_questions", none⟩ := by
  refine ⟨rfl, ?_, ?_⟩
  · simp [render_redirect_record, redcap_registration_complete, is_complete, List.lookup,
      REDCapValue_COMPLETE]
  · have hcomp : redcap_registration_complete
        (some (render_redirect_record none new_record_id)) = false := by
      simp [render_redirect_record, redcap_registration_complete, is_complete, List.lookup,
        REDCapValue_COMPLETE]
    simp [resolve_target, hcomp]

/-- C6 counterexample: `instance = 0` is provided and non-null, yet
`generate_survey_link` omits the repeat-instance parameter, because
Python's `if instance:` treats `0` as falsy. -/
theorem generate_survey_link_zero_instance_counterexample :
    List.lookup "repeat_instance"
        (generate_survey_link_data "tok" "1" "enrollment_arm_1" "enrollment_questions"
          (some 0)) = none ∧
    (some (0 : Int)) ≠ (none : Option Int) := by
  constructor
  · simp [generate_survey_link_data, instance_truthy, List.lookup]
  · simp

/-- C6 (amended): the repeat-instance parameter is included in the posted
form exactly when the `instance` argument is provided and truthy
(non-null and non-zero); when omitted, null, or zero, it is not sent. -/
theorem generate_survey_link_repeat_instance_iff
    (api_token record_id event instrument : String) (inst : Option Int) :
    (∃ v, List.lookup "repeat_instance"
        (generate_survey_link_data api_token record_id event instrument inst) = some v) ↔
      ∃ i, inst = some i ∧ i ≠ 0 := by
  cases inst with
  | none => simp [generate_survey_link_data, instance_truthy, List.lookup]
  | some i =>
    by_cases h : i = 0
    · subst h
      simp [generate_survey_link_data, instance_truthy, List.lookup]
    · simp [generate_survey_link_data, instance_truthy, h, List.lookup]

/-- C9 counterexample: for a key that already starts with the prefix, the
raw key and the doubly-prefixed key address different cache entries: with
prefix `app.`, key `app.x` sanitizes to itself but `app.` + `app.x`
sanitizes to `app.app.x`, and a value set under `app.x` is not found under
the prefixed form. -/
theorem sanitize_key_double_prefix_counterexample :
    sanitize_key "app." ("app." ++ "app.x") ≠ sanitize_key "app." "app.x" ∧
    cache_get (cache_set emptyStore "app." "app.x" (.pstr "v")) "app."
        ("app." ++ "app.x") false = .ok .absent := by
  exact ⟨by decide, rfl⟩

/-- C9 (amended): `sanitize_key` is idempotent; `get` and `set` apply the
same key mapping, so a value set under a key is read back under that same
key; and for a key that does not already start with the prefix, the raw
key and its prefixed form address the same entry. -/
theorem sanitize_key_idempotent_and_consistent (pfx key : String) :
    sanitize_key pfx (sanitize_key pfx key) = sanitize_key pfx key ∧
    (∀ (store : Store) (v : PyValue),
        cache_get (cache_set store pfx key v) pfx key false = .ok (.raw (sanitize_value v))) ∧
    (str_startswith key pfx = false →
        sanitize_key pfx (pfx ++ key) = sanitize_key pfx key) := by
  have hpre : str_startswith (pfx ++ key) pfx = true := by
    simp only [str_startswith, String.data_append]
    rw [List.isPrefixOf_iff_prefix]
    exact List.prefix_append pfx.data key.data
  refine ⟨?_, ?_, ?_⟩
  · unfold sanitize_key
    by_cases h : str_startswith key pfx
    · simp [h]
    · simp [h, hpre]
  · intro store v
    simp [cache_get, cache_set, redis_set]
  · intro h
    simp [sanitize_key, h, hpre]

/-- Witness for C9 (amended) at the application's prefix and a NetID key. -/
theorem sanitize_key_idempotent_and_consistent_witness :
    sanitize_key "husky_musher." (sanitize_key "husky_musher." "u") =
        sanitize_key "husky_musher." "u" ∧
    cache_get (cache_set emptyStore "husky_musher." "u" (.pstr "x")) "husky_musher." "u"
        false = .ok (.raw "x") ∧
    sanitize_key "husky_musher." ("husky_musher." ++ "u") = sanitize_key "husky_musher." "u" :=
  ⟨(sanitize_key_idempotent_and_consistent "husky_musher." "u").1,
    (sanitize_key_idempotent_and_consistent "husky_musher." "u").2.1 emptyStore (.pstr "x"),
    (sanitize_key_idempotent_and_consistent "husky_musher." "u").2.2 (by decide)⟩

/-- C7 counterexample: for the JSON-serializable value `"abc"` (a Redis
primitive, so `set` stores it verbatim rather than JSON-encoded),
`get(k, load_json=True)` does not return the value — `json.loads("abc")`
raises instead. -/
theorem cache_get_load_json_raw_string_counterexample :
    cache_get (cache_set emptyStore "husky_musher." "k" (.pstr "abc")) "husky_musher." "k"
        true = .error () := rfl

/-- C7 (amended): after `set(k, v)` a plain `get(k)` returns exactly the
stored encoding of `v` (primitives verbatim, other values JSON-encoded);
when `v` is not a primitive — so `set` JSON-serialized it —
`get(k, load_json=True)` returns `v` itself; and `get` on a key never set
returns absent rather than raising. -/
theorem cache_set_get_roundtrip (store : Store) (pfx k : String) :
    (∀ v : PyValue,
        cache_get (cache_set store pfx k v) pfx k false = .ok (.raw (sanitize_value v))) ∧
    (∀ j : Json,
        cache_get (cache_set store pfx k (.pjson j)) pfx k true = .ok (.parsed j)) ∧
    (∀ load_json : Bool, store (sanitize_key pfx k) = none →
        cache_get store pfx k load_json = .ok .absent) := by
  refine ⟨?_, ?_, ?_⟩
  · intro v
    simp [cache_get, cache_set, redis_set]
  · intro j
    exact cache_get_set_pjson store pfx k j
  · intro load_json h
    simp [cache_get, h]

/-- Witness for C7 (amended) at a concrete record value and key. -/
theorem cache_set_get_roundtrip_witness :
    cache_get (cache_set emptyStore "husky_musher." "u" (.pstr "x")) "husky_musher." "u"
        false = .ok (.raw "x") ∧
    cache_get
        (cache_set emptyStore "husky_musher." "u"
          (.pjson (Json.obj [("record_id", .str "7")])))
        "husky_musher." "u" true = .ok (.parsed (Json.obj [("record_id", .str "7")])) ∧
    cache_get emptyStore "husky_musher." "u" true = .ok .absent :=
  ⟨(cache_set_get_roundtrip emptyStore "husky_musher." "u").1 (.pstr "x"),
    (cache_set_get_roundtrip emptyStore "husky_musher." "u").2.1
      (Json.obj [("record_id", .str "7")]),
    (cache_set_get_roundtrip emptyStore "husky_musher." "u").2.2 true rfl⟩

/-- C8: every exception raised in the redirect handler's chain is rendered
by the boundary handlers as the generic "something went wrong" page with
status 500, except `InvalidNetId`, which renders the dedicated invalid
NetID page with status 400. -/
theorem redirect_chain_error_rendering (e : AppException) (h : raised_in_redirect_chain e) :
    (∀ netid, e = .invalidNetId netid →
        handle_exception e = ⟨"invalid_netid.html", 400⟩) ∧
    ((∀ netid, e ≠ .invalidNetId netid) →
        handle_exception e = ⟨"something_went_wrong.html", 500⟩) := by
  cases e with
  | invalidNetId s =>
    exact ⟨fun _ _ => rfl, fun hn => absurd rfl (hn s)⟩
  | notFound => exact absurd h (by simp [raised_in_redirect_chain])
  | badRequest s => exact ⟨fun _ hx => AppException.noConfusion hx, fun _ => rfl⟩
  | internalServerError s => exact ⟨fun _ hx => AppException.noConfusion hx, fun _ => rfl⟩
  | httpError => exact ⟨fun _ hx => AppException.noConfusion hx, fun _ => rfl⟩
  | other s => exact ⟨fun _ hx => AppException.noConfusion hx, fun _ => rfl⟩

/-- Witness for C8 at the ambiguous-record `BadRequest` and at
`InvalidNetId`. -/
theorem redirect_chain_error_rendering_witness :
    handle_exception (.badRequest "Multiple records exist") =
        ⟨"something_went_wrong.html", 500⟩ ∧
    handle_exception (.invalidNetId "u") = ⟨"invalid_netid.html", 400⟩ :=
  ⟨(redirect_chain_error_rendering (.badRequest "Multiple records exist")
      trivial).2 (fun _ hx => AppException.noConfusion hx),
    (redirect_chain_error_rendering (.invalidNetId "u") trivial).1 "u" rfl⟩

/-- C3: on a cache miss, `fetch_participant` returns absent for zero
external matches, the single record for exactly one match, and raises the
ambiguous-record `BadRequest` (no retry — the function makes one pass) for
two or more matches. -/
theorem fetch_participant_cache_miss_cases (store : Store) (pfx netid : String)
    (h : store (sanitize_key pfx netid) = none) :
    fetch_participant store pfx netid [] = .ok ⟨none, store, true⟩ ∧
    (∀ r : Record, ∃ store2 : Store,
        fetch_participant store pfx netid [r] = .ok ⟨some r, store2, true⟩) ∧
    (∀ (r1 r2 : Record) (rest : List Record), ∃ ids,
        fetch_participant store pfx netid (r1 :: r2 :: rest) =
          .error (.multipleRecords netid ids)) := by
  have hcg : cache_get store pfx netid true = .ok .absent := by simp [cache_get, h]
  refine ⟨?_, ?_, ?_⟩
  · simp [fetch_participant, hcg, fetch_participant_external]
  · intro r
    by_cases hc : redcap_registration_complete (some r) = true
    · refine ⟨cache_set store pfx netid (.pjson (record_to_json r)), ?_⟩
      simp [fetch_participant, hcg, fetch_participant_external, hc]
    · refine ⟨store, ?_⟩
      simp [fetch_participant, hcg, fetch_participant_external, hc]
  · intro r1 r2 rest
    refine ⟨(r1 :: r2 :: rest).map fun x => (List.lookup "record_id" x).getD "", ?_⟩
    rw [fetch_participant.eq_def, hcg]
    rw [fetch_participant_external.eq_def]

/-- Witness for C3 on an empty cache. -/
theorem fetch_participant_cache_miss_cases_witness :
    fetch_participant emptyStore "husky_musher." "u" [] = .ok ⟨none, emptyStore, true⟩ :=
  (fetch_participant_cache_miss_cases emptyStore "husky_musher." "u" rfl).1

/-- The export branch touches the cache only to store the serialized JSON
of a record that satisfies `redcap_registration_complete`. -/
theorem fetch_participant_external_caches_only_complete (store : Store) (pfx netid : String)
    (ext : List Record) (result : FetchResult)
    (hres : fetch_participant_external store pfx netid ext = .ok result)
    (k v : String) (hk : result.store k = some v) :
    store k = some v ∨
      ∃ r : Record, v = json_dumps (record_to_json r) ∧
        redcap_registration_complete (some r) = true := by
  match ext with
  | [] =>
    rw [fetch_participant_external] at hres
    injection hres with h
    rw [← h] at hk
    exact Or.inl hk
  | [r] =>
    rw [fetch_participant_external] at hres
    by_cases hc : redcap_registration_complete (some r) = true
    · rw [if_pos hc] at hres
      injection hres with h
      rw [← h] at hk
      simp only [cache_set, redis_set, sanitize_value] at hk
      by_cases hkey : k = sanitize_key pfx netid
      · rw [if_pos hkey] at hk
        exact Or.inr ⟨r, (Option.some.inj hk).symm, hc⟩
      · rw [if_neg hkey] at hk
        exact Or.inl hk
    · rw [if_neg hc] at hres
      injection hres with h
      rw [← h] at hk
      exact Or.inl hk
  | r1 :: r2 :: rest =>
    rw [fetch_participant_external.eq_def] at hres
    simp at hres

/-- C4: `fetch_participant` caches a record only when
`redcap_registration_complete` holds for it — every entry of the store it
returns either predates the call or is the serialized JSON of a
registration-complete record. -/
theorem fetch_participant_caches_only_complete (store : Store) (pfx netid : String)
    (ext : List Record) (result : FetchResult)
    (hres : fetch_participant store pfx netid ext = .ok result)
    (k v : String) (hk : result.store k = some v) :
    store k = some v ∨
      ∃ r : Record, v = json_dumps (record_to_json r) ∧
        redcap_registration_complete (some r) = true := by
  rw [fetch_participant.eq_def] at hres
  cases hcg : cache_get store pfx netid true with
  | error e =>
    rw [hcg] at hres
    exact Except.noConfusion hres
  | ok res =>
    rw [hcg] at hres
    cases res with
    | absent => exact fetch_participant_external_caches_only_complete _ _ _ _ _ hres _ _ hk
    | raw s => exact fetch_participant_external_caches_only_complete _ _ _ _ _ hres _ _ hk
    | parsed j =>
      simp only at hres
      by_cases hj : jsonTruthy j = true
      · rw [if_pos hj] at hres
        cases hjr : json_to_record j with
        | some r =>
          rw [hjr] at hres
          injection hres with h
          rw [← h] at hk
          exact Or.inl hk
        | none =>
          rw [hjr] at hres
          exact Except.noConfusion hres
      · rw [if_neg hj] at hres
        exact fetch_participant_external_caches_only_complete _ _ _ _ _ hres _ _ hk

/-- Witness for C4: a registration-complete record fetched on a cache miss
lands in the store as its serialized JSON. -/
theorem fetch_participant_caches_only_complete_witness :
    emptyStore "husky_musher.u" =
        some (json_dumps (record_to_json [("enrollment_questions_complete", "2")])) ∨
      ∃ r : Record,
        json_dumps (record_to_json [("enrollment_questions_complete", "2")]) =
            json_dumps (record_to_json r) ∧
          redcap_registration_complete (some r) = true :=
  fetch_participant_caches_only_complete emptyStore "husky_musher." "u"
    [[("enrollment_questions_complete", "2")]]
    ⟨some [("enrollment_questions_complete", "2")],
      cache_set emptyStore "husky_musher." "u"
        (.pjson (record_to_json [("enrollment_questions_complete", "2")])), true⟩
    (by rfl) "husky_musher.u"
    (json_dumps (record_to_json [("enrollment_questions_complete", "2")])) (by rfl)

/-- C5 counterexample: an entry is present in the cache for the user (the
serialized empty record), yet `fetch_participant` does not return it and
does execute the external-query branch — `if not record:` treats the falsy
loaded value as a miss. -/
theorem fetch_participant_falsy_cache_hit_counterexample :
    (redis_set emptyStore "husky_musher.u" (json_dumps (Json.obj [])))
        (sanitize_key "husky_musher." "u") = some (json_dumps (Json.obj [])) ∧
    fetch_participant (redis_set emptyStore "husky_musher.u" (json_dumps (Json.obj [])))
        "husky_musher." "u" [] =
      .ok ⟨none, redis_set emptyStore "husky_musher.u" (json_dumps (Json.obj [])), true⟩ :=
  ⟨rfl, rfl⟩

/-- C5 (amended): when the cached value for the user decodes to a truthy
(non-empty) record — which is the case for every record
`fetch_participant` itself caches, since a registration-complete record is
non-empty — `fetch_participant` returns that record unchanged and the
external-call branch is not executed, whatever REDCap would have
answered. -/
theorem fetch_participant_cache_hit_short_circuits (store : Store) (pfx netid : String)
    (ext : List Record) (r : Record) (hr : r ≠ [])
    (hhit : store (sanitize_key pfx netid) = some (json_dumps (record_to_json r))) :
    fetch_participant store pfx netid ext = .ok ⟨some r, store, false⟩ := by
  have hne : (true && decide (json_dumps (record_to_json r) ≠ "")) = true := by
    simp [json_dumps_ne_empty]
  have hcg : cache_get store pfx netid true = .ok (.parsed (record_to_json r)) := by
    simp [cache_get, hhit, hne, json_loads_dumps, json_dumps_ne_empty]
  rw [fetch_participant.eq_def, hcg]
  simp [jsonTruthy_record_to_json r hr, json_to_record_record_to_json]

/-- Witness for C5 (amended): a cached one-field record is returned as-is
with no external call, even though REDCap would have returned a different
record. -/
theorem fetch_participant_cache_hit_short_circuits_witness :
    fetch_participant
        (cache_set emptyStore "husky_musher." "u"
          (.pjson (record_to_json [("record_id", "1")])))
        "husky_musher." "u" [[("record_id", "2")]] =
      .ok ⟨some [("record_id", "1")],
        cache_set emptyStore "husky_musher." "u"
          (.pjson (record_to_json [("record_id", "1")])), false⟩ :=
  fetch_participant_cache_hit_short_circuits _ "husky_musher." "u" _ [("record_id", "1")]
    (by simp) rfl
